import Mathlib

/-!
# SemanticSQL: verification of the schema-semantic retrieval and query-generation pipeline

Shallow embedding of the core pipeline of the SemanticSQL repository:

* `app/services/metadata_extractor.py` — text unit builder (`generate_embedding_texts`)
* `app/services/vector_store.py`       — retriever (`query_vector_store`, `get_table_context`)
* `app/services/embedder.py`           — embedding store (`store_embeddings`, batch)
* `app/services/query_generator.py`    — query synthesizer (`generate_sql_with_llm`, …)
* `app/utils/query_generator.py`       — utils-layer generator (`generate_query`)
* `app/services/query_service.py`      — rule-based fallback (`simple_query_generator`)
* `app/services/connection_service.py` — orchestrator (`process_connection_schema`)
* `app/utils/embedding.py`             — Qdrant-backed store (`Qdrant.store_embeddings`)

Python floats are modelled as exact rationals; cosine-similarity values are
represented square-root-free by a pair (see `Sim`); database sessions become
explicit state records; fallible external calls (schema introspection, model
inference, embedding inference) are passed in as `Except`-valued parameters.
-/

/-- One row of extracted schema metadata, as produced by `extract_database_schema`
and consumed by `generate_embedding_texts` (a Python dict with these keys). -/
structure SchemaFact where
  schema_name : String
  table_name : String
  column_name : String
  data_type : String
  is_primary_key : Bool
  is_foreign_key : Bool
  foreign_table : Option String
  foreign_column : Option String
deriving Repr, DecidableEq

/-- One embeddable text unit (a dict with keys schema_name, table_name,
column_name, description), as produced by `generate_embedding_texts`. -/
structure TextUnit where
  schema_name : String
  table_name : String
  column_name : Option String
  description : String
deriving Repr, DecidableEq

/-- How Python renders an optional value inside an f-string: `None` becomes
the text "None". -/
def pyStr : Option String → String
  | none => "None"
  | some s => s

/-- The mutable per-table accumulator built by `generate_embedding_texts`:
an entry keyed by table_key holding schema_name, table_name and a column list. -/
structure TableGroup where
  schema_name : String
  table_name : String
  columns : List SchemaFact
deriving Repr, DecidableEq

/-- The grouping key the joined string of schema_name, a dot, and table_name used by
`generate_embedding_texts` (metadata_extractor.py line 92). -/
def tableKey (f : SchemaFact) : String :=
  f.schema_name ++ "." ++ f.table_name

/-- One iteration of the grouping loop of `generate_embedding_texts`
(lines 91-100): create the dict entry if the key is absent, then append the
item to that column list of that entry.  The insertion-ordered Python dict is an
association list. -/
def addFact (tables : List (String × TableGroup)) (item : SchemaFact) :
    List (String × TableGroup) :=
  let key := tableKey item
  let tables1 :=
    if tables.any (fun kv => kv.1 == key) then tables
    else tables ++ [(key, ⟨item.schema_name, item.table_name, []⟩)]
  tables1.map (fun kv =>
    if kv.1 == key then (kv.1, { kv.2 with columns := kv.2.columns ++ [item] }) else kv)

/-- The `tables` dict after the whole grouping loop of
`generate_embedding_texts`. -/
def groupTables (metadata : List SchemaFact) : List (String × TableGroup) :=
  metadata.foldl addFact []

/-- The table-level description string built at metadata_extractor.py
lines 105-106. -/
def tableDescription (g : TableGroup) : String :=
  "Table " ++ g.table_name ++ " in schema " ++ g.schema_name ++ " with columns: "
    ++ String.intercalate (", ") (g.columns.map (·.column_name))

/-- The column-level description string built at metadata_extractor.py
lines 117-121: base text, then a primary-key suffix, then a foreign-key
suffix. -/
def columnDescription (c : SchemaFact) : String :=
  let d := "Column " ++ c.column_name ++ " of type " ++ c.data_type
            ++ " in table " ++ c.table_name
  let d1 := if c.is_primary_key then d ++ " (Primary Key)" else d
  if c.is_foreign_key then
    d1 ++ " (Foreign Key to " ++ pyStr c.foreign_table ++ "." ++ pyStr c.foreign_column ++ ")"
  else d1

/-- `generate_embedding_texts` (metadata_extractor.py lines 77-130): group the
facts, then for each group emit one table-level unit followed by one
column-level unit per fact. -/
def generate_embedding_texts (metadata : List SchemaFact) : List TextUnit :=
  ((groupTables metadata).map (fun kv =>
    { schema_name := kv.2.schema_name
      table_name := kv.2.table_name
      column_name := none
      description := tableDescription kv.2 }
    :: kv.2.columns.map (fun c =>
      { schema_name := c.schema_name
        table_name := c.table_name
        column_name := some c.column_name
        description := columnDescription c }))).flatten

/-! ### Specification-side text unit builder

Two independent definitions written from the spec wording (group by
`(schema_name, table_name)` preserving first-seen order; for each group
emit exactly one table-level unit … followed by one column-level unit per
fact"): `specUnitsByPair` groups by the pair exactly as the claim states,
`specUnitsByKey` groups by the joined key string that the code actually
uses. -/

/-- First-seen-order deduplication. -/
def firstSeen {γ : Type} [DecidableEq γ] (l : List γ) : List γ :=
  l.foldl (fun acc k => if k ∈ acc then acc else acc ++ [k]) []

/-- Spec-side column description: base text with a primary-key suffix
appended when `is_primary_key` and a foreign-key suffix appended when
`is_foreign_key`, primary-key suffix first. -/
def specColumnDescription (f : SchemaFact) : String :=
  "Column " ++ f.column_name ++ " of type " ++ f.data_type ++ " in table " ++ f.table_name
    ++ (if f.is_primary_key then " (Primary Key)" else "")
    ++ (if f.is_foreign_key then
          " (Foreign Key to " ++ pyStr f.foreign_table ++ "." ++ pyStr f.foreign_column ++ ")"
        else "")

/-- Spec-side column-level unit for one fact. -/
def specColumnUnit (f : SchemaFact) : TextUnit :=
  { schema_name := f.schema_name
    table_name := f.table_name
    column_name := some f.column_name
    description := specColumnDescription f }

/-- Spec-side table-level unit for a group of facts: identity taken from the
first fact of the group, description listing the column names in fact order. -/
def specTableUnit (facts : List SchemaFact) : TextUnit :=
  let sch := ((facts.head?).map (·.schema_name)).getD ("")
  let tbl := ((facts.head?).map (·.table_name)).getD ("")
  { schema_name := sch
    table_name := tbl
    column_name := none
    description := "Table " ++ tbl ++ " in schema " ++ sch ++ " with columns: "
      ++ String.intercalate (", ") (facts.map (·.column_name)) }

/-- Text units per the claim wording: group by the `(schema_name,
table_name)` pair in first-seen order; per group one table unit then the
column units. -/
def specUnitsByPair (metadata : List SchemaFact) : List TextUnit :=
  ((firstSeen (metadata.map (fun f => (f.schema_name, f.table_name)))).map (fun st =>
    let facts := metadata.filter (fun f => f.schema_name == st.1 && f.table_name == st.2)
    specTableUnit facts :: facts.map specColumnUnit)).flatten

/-- Text units grouped by the joined schema-dot-table key string, in
first-seen order — the grouping the code actually performs. -/
def specUnitsByKey (metadata : List SchemaFact) : List TextUnit :=
  ((firstSeen (metadata.map tableKey)).map (fun k =>
    let facts := metadata.filter (fun f => tableKey f == k)
    specTableUnit facts :: facts.map specColumnUnit)).flatten

/-! ### Vector store (app/services/vector_store.py)

Embedding vectors are exact rationals.  A cosine-similarity value
dot(a,q) / (‖a‖·‖q‖) is represented square-root-free by the pair
`Sim.mk num denSq`, denoting the real number num / sqrt denSq; the
comparison `Sim.le` is proved below to agree with the real-number order.
sklearn's cosine_similarity replaces a zero norm by 1, so a zero vector
gets similarity 0 — `cosineSim` normalises that case to the pair (0, 1). -/

/-- A stored row of the table_embeddings table (model TableEmbedding in
app/models/schema_models.py).  The primary-key UUID is a natural number;
embedding_json round-trips through JSON, so it is kept as the vector. -/
structure TableEmbedding where
  id : Nat
  db_id : Nat
  schema_name : String
  table_name : String
  column_name : Option String
  description : String
  embedding : List ℚ
  created_at : String
deriving Repr, DecidableEq

/-- Dot product of two vectors (numpy dot over matched coordinates). -/
def dotQ (a b : List ℚ) : ℚ :=
  (List.zipWith (fun x y => x * y) a b).sum

/-- Squared Euclidean norm. -/
def normSq (a : List ℚ) : ℚ := dotQ a a

/-- Square-root-free representation of a similarity score: the pair
(num, denSq) denotes the real number num / sqrt denSq. -/
structure Sim where
  num : ℚ
  denSq : ℚ
deriving Repr, DecidableEq

/-- The cosine similarity of two vectors as computed by
sklearn.metrics.pairwise.cosine_similarity, as a `Sim` pair.  When either
vector has zero norm sklearn yields 0, represented by the pair (0, 1). -/
def cosineSim (a b : List ℚ) : Sim :=
  if normSq a * normSq b = 0 then ⟨0, 1⟩
  else ⟨dotQ a b, normSq a * normSq b⟩

/-- Decides num s / sqrt (denSq s) ≤ num t / sqrt (denSq t) without square
roots (for pairs with positive denSq, which `cosineSim` always produces):
compare signs first, then the squared cross products. -/
def Sim.le (s t : Sim) : Bool :=
  if s.num ≤ 0 then
    if 0 ≤ t.num then true
    else decide (t.num ^ 2 * s.denSq ≤ s.num ^ 2 * t.denSq)
  else
    if t.num ≤ 0 then false
    else decide (s.num ^ 2 * t.denSq ≤ t.num ^ 2 * s.denSq)

/-- The record dict built for each fetched row at vector_store.py
lines 123-132 (id, schema_name, table_name, column_name, description,
embedding — db_id and created_at are not copied). -/
structure SearchRecord where
  id : Nat
  schema_name : String
  table_name : String
  column_name : Option String
  description : String
  embedding : List ℚ
deriving Repr, DecidableEq

/-- The same record after the similarity score has been attached
(vector_store.py lines 147-148). -/
structure RetrievalHit where
  id : Nat
  schema_name : String
  table_name : String
  column_name : Option String
  description : String
  embedding : List ℚ
  similarity : Sim
deriving Repr, DecidableEq

/-- The SELECT at vector_store.py lines 112-117: all rows, or the rows of
one db_id when the filter is given; rows come back in storage order. -/
def scopeRecords (store : List TableEmbedding) (db_id : Option Nat) :
    List TableEmbedding :=
  match db_id with
  | none => store
  | some d => store.filter (fun r => r.db_id == d)

/-- Row-to-dict conversion (vector_store.py lines 123-132). -/
def toSearchRecord (r : TableEmbedding) : SearchRecord :=
  { id := r.id
    schema_name := r.schema_name
    table_name := r.table_name
    column_name := r.column_name
    description := r.description
    embedding := r.embedding }

/-- Attach the cosine-similarity score against the query vector
(vector_store.py lines 144-148). -/
def scoreRecord (query_embedding : List ℚ) (r : SearchRecord) : RetrievalHit :=
  { id := r.id
    schema_name := r.schema_name
    table_name := r.table_name
    column_name := r.column_name
    description := r.description
    embedding := r.embedding
    similarity := cosineSim r.embedding query_embedding }

/-- The comparator of the descending in-place sort
records.sort(key=similarity, reverse=True): a hit may stay before b
exactly when its similarity is at least that of b.  Python's sort is
stable; `List.mergeSort` is the stable sort used to model it. -/
def hitLE (a b : RetrievalHit) : Bool :=
  Sim.le b.similarity a.similarity

/-- `query_vector_store` (vector_store.py lines 93-153): fetch the scoped
rows, return [] when there are none, otherwise score every record against
the query embedding, sort descending by similarity (stable) and return the
first `limit` records. -/
def query_vector_store (store : List TableEmbedding) (query_embedding : List ℚ)
    (db_id : Option Nat) (limit : Nat) : List RetrievalHit :=
  let records := (scopeRecords store db_id).map toSearchRecord
  if records.isEmpty then []
  else
    let hits := records.map (scoreRecord query_embedding)
    (hits.mergeSort hitLE).take limit

/-- Strictly-greater similarity. -/
def simAbove (s t : Sim) : Bool := Sim.le t s && !(Sim.le s t)

/-- Equivalent similarity. -/
def simEquiv (s t : Sim) : Bool := Sim.le s t && Sim.le t s

/-- Specification-side ranking order on index-tagged hits: a ranks before b
exactly when its similarity is strictly greater, or the similarities tie
and a came first in the original storage order. -/
def rankLE (a b : Nat × RetrievalHit) : Bool :=
  simAbove a.2.similarity b.2.similarity
    || (simEquiv a.2.similarity b.2.similarity && decide (a.1 ≤ b.1))

/-- Specification-side search: score the scoped records, sort them by the
total order `rankLE` (descending similarity, ties broken by original
position) and truncate to the first `limit`. -/
def searchSpec (store : List TableEmbedding) (query_embedding : List ℚ)
    (db_id : Option Nat) (limit : Nat) : List RetrievalHit :=
  let hits := ((scopeRecords store db_id).map toSearchRecord).map (scoreRecord query_embedding)
  (((hits.enum).mergeSort rankLE).map (·.2)).take limit

/-- The record fields of a hit, without the attached similarity score. -/
def hitRecord (h : RetrievalHit) : SearchRecord :=
  { id := h.id
    schema_name := h.schema_name
    table_name := h.table_name
    column_name := h.column_name
    description := h.description
    embedding := h.embedding }

/-- `get_table_context` result rows (vector_store.py lines 190-199). -/
structure CtxRecord where
  id : Nat
  schema_name : String
  table_name : String
  column_name : Option String
  description : String
deriving Repr, DecidableEq

/-- `get_table_context` (vector_store.py lines 155-201): all stored rows of
one db_id and table, optionally narrowed to a schema. -/
def get_table_context (store : List TableEmbedding) (db_id : Nat)
    (table_name : String) (schema_name : Option String) : List CtxRecord :=
  ((store.filter (fun r =>
      r.db_id == db_id && r.table_name == table_name &&
        (match schema_name with
         | none => true
         | some s => r.schema_name == s))).map (fun r =>
    { id := r.id
      schema_name := r.schema_name
      table_name := r.table_name
      column_name := r.column_name
      description := r.description }))

/-! ### Query synthesizer (app/services/query_generator.py)

The language model is an external collaborator: a configured model is a
function from prompt to `Except`-valued completion (error = a raised
exception), and an unconfigured model is `none` (get_llm_model returns
None when no API key is set or initialisation fails). -/

/-- Leading-match test on character lists (needle against the front). -/
def chLead : List Char → List Char → Bool
  | [], _ => true
  | _ :: _, [] => false
  | a :: as, b :: bs => a == b && chLead as bs

/-- Substring test on character lists. -/
def chSub (needle : List Char) : List Char → Bool
  | [] => needle.isEmpty
  | b :: bs => chLead needle (b :: bs) || chSub needle bs

/-- The Python expression needle in hay on strings. -/
def strContains (hay needle : String) : Bool :=
  chSub needle.data hay.data

/-- Code-fence stripping applied to the stripped model output
(query_generator.py lines 162-166, identical at lines 231-235). -/
def strip_code_fences (sql_query : String) : String :=
  if sql_query.startsWith ("```sql") then
    ((sql_query.replace ("```sql") ("")).replace ("```") ("")).trim
  else if sql_query.startsWith ("```") then
    (sql_query.replace ("```") ("")).trim
  else sql_query

/-- The schema block of the prompt: one line per retrieved description
(query_generator.py lines 134-136). -/
def formatSchema (schema_metadata : List CtxRecord) : String :=
  String.join (schema_metadata.map (fun item => "- " ++ item.description ++ "\n"))

/-- The generation prompt with the schema block and the user query
substituted (query_generator.py lines 141-154). -/
def sqlPrompt (schema query : String) : String :=
  "\nYou are an expert SQL database engineer. You need to convert a natural language query to a valid SQL query.\n\nThe database schema includes the following relevant information:\n"
    ++ schema
    ++ "\n\nUser query: " ++ query
    ++ "\n\nGenerate a valid SQL query that answers the question. Only provide the SQL query, nothing else. \nMake sure the query is correct based on the schema information and use proper column and table names.\n"

/-- The refinement prompt (query_generator.py lines 203-219). -/
def refinePrompt (schema original_query feedback : String) : String :=
  "\nYou are an expert SQL database engineer. You need to refine an existing SQL query based on user feedback.\n\nThe database schema includes the following relevant information:\n"
    ++ schema
    ++ "\n\nOriginal SQL query:\n" ++ original_query
    ++ "\n\nUser feedback: " ++ feedback
    ++ "\n\nGenerate a revised SQL query that addresses the feedback. Only provide the SQL query, nothing else. \nMake sure the query is correct based on the schema information and use proper column and table names.\n"

/-- The placeholder produced when no model is available
(query_generator.py lines 128-130).  Python builds list(set(...)) of the
table names; set iteration order is modelled as first-seen order. -/
def placeholderSQL (schema_metadata : List CtxRecord) : String :=
  let tables := firstSeen (schema_metadata.map (·.table_name))
  "-- Placeholder query (no LLM API key)\nSELECT * FROM "
    ++ tables.headD ("table") ++ " LIMIT 10;"

/-- `generate_sql_with_llm` (query_generator.py lines 111-173).  With no
model or an empty API key it returns the placeholder; otherwise it invokes
the model once on the prompt, strips code fences from a successful result,
and converts a raised error into a SQL comment embedding the error text and
the original question. -/
def generate_sql_with_llm (apiKey : String)
    (llm : Option (String → Except String String))
    (user_query : String) (schema_metadata : List CtxRecord) : String :=
  match llm with
  | none => placeholderSQL schema_metadata
  | some invoke =>
    if apiKey = "" then placeholderSQL schema_metadata
    else
      match invoke (sqlPrompt (formatSchema schema_metadata) user_query) with
      | Except.ok result => strip_code_fences result.trim
      | Except.error e =>
        "-- Error generating SQL with LLM: " ++ e
          ++ "\n-- Natural language query: " ++ user_query

/-- `refine_query_with_llm` (query_generator.py lines 175-242). -/
def refine_query_with_llm (apiKey : String)
    (llm : Option (String → Except String String))
    (original_query user_feedback : String)
    (schema_metadata : List CtxRecord) : String :=
  match llm with
  | none => "-- Cannot refine query without LLM API key\n" ++ original_query
  | some invoke =>
    if apiKey = "" then "-- Cannot refine query without LLM API key\n" ++ original_query
    else
      match invoke (refinePrompt (formatSchema schema_metadata) original_query user_feedback) with
      | Except.ok result => strip_code_fences result.trim
      | Except.error e =>
        "-- Error refining SQL with LLM: " ++ e ++ "\n" ++ original_query

/-! ### Utils-layer generator (app/utils/query_generator.py) -/

/-- The full prompt assembled by `generate_query`
(utils/query_generator.py lines 34-41). -/
def utilsPrompt (question schema_info : String) : String :=
  "\nDatabase Tables:\n" ++ schema_info
    ++ "\n\nUser Question: " ++ question
    ++ "\n\nGenerate an SQL query that uses ONLY the tables and columns listed above, even if the question mentions other tables.\n"

/-- `generate_query` (utils/query_generator.py lines 26-49): return a
comment when no schema information is present; otherwise invoke the chain
and return the stripped response — but a raised model error is logged and
re-raised (the bare raise at line 49), so it propagates to the caller. -/
def generate_query (chainInvoke : String → Except String String)
    (question schema_info : String) : Except String String :=
  if schema_info = "" || !(strContains schema_info ("Available Tables in Database")) then
    Except.ok ("/* No database schema available. Please connect to a database first. */")
  else
    match chainInvoke (utilsPrompt question schema_info) with
    | Except.ok response => Except.ok response.trim
    | Except.error e => Except.error e

/-! ### Rule-based fallback (app/services/query_service.py)

The Python string operations used here (split on newline, strip, lower)
are spelled out on character lists so that they compute by kernel
reduction. -/

/-- Python split on a newline, keeping empty pieces. -/
def splitNl : List Char → List (List Char)
  | [] => [[]]
  | c :: cs =>
    match splitNl cs with
    | h :: t => if c == '\n' then [] :: h :: t else (c :: h) :: t
    | [] => [[c]]

/-- The default whitespace set of Python str.strip. -/
def isPySpace (c : Char) : Bool :=
  c == ' ' || c == '\t' || c == '\n' || c == '\r' || c == '\x0b' || c == '\x0c'

/-- Drop leading characters satisfying the test. -/
def dropLead (p : Char → Bool) : List Char → List Char
  | [] => []
  | c :: cs => if p c then dropLead p cs else c :: cs

/-- Python str.strip on a character list. -/
def trimChars (l : List Char) : List Char :=
  (dropLead isPySpace (dropLead isPySpace l.reverse).reverse)

/-- Python str.lower (over the ASCII range relevant here). -/
def strLower (s : String) : String :=
  String.mk (s.data.map Char.toLower)

/-- Table-name extraction from the schema text: every line that starts
with a dash and a space, with the marker dropped and the rest stripped
(query_service.py lines 66-71). -/
def parseSchemaTables (schema_info : String) : List String :=
  (splitNl schema_info.data).filterMap (fun line =>
    if chLead [('-' : Char), ' '] line then some (String.mk (trimChars (line.drop 2)))
    else none)

/-- `QueryService._simple_query_generator` (query_service.py lines 64-88):
extract the table names; with none, a constant diagnostic query; otherwise
target the first table whose lower-cased name occurs in the lower-cased
question (else the first table), and answer COUNT(*) for count or
how-many questions, else a LIMIT 10 scan. -/
def simple_query_generator (question : String) (schema_info : String) : String :=
  let tables := parseSchemaTables schema_info
  if tables.isEmpty then "SELECT 1 /* No tables found in database */"
  else
    let target :=
      match tables.find? (fun t => strContains (strLower question) (strLower t)) with
      | some t => t
      | none => tables.headD ("")
    if [("count" : String), "how many"].any (fun w => strContains (strLower question) w) then
      "SELECT COUNT(*) FROM " ++ target
    else
      "SELECT * FROM " ++ target ++ " LIMIT 10"

/-! ### Embedding store and orchestrator state

The application database holds connection rows, table_schemas rows and
table_embeddings rows.  Every insert commits immediately (each store call
does session.add + commit).  Row UUIDs are modelled by a counter supplying
one fresh id per created row. -/

/-- A table_schemas row (model TableSchema in app/models/schema_models.py). -/
structure TableSchemaRec where
  id : Nat
  db_id : Nat
  schema_name : String
  table_name : String
  column_name : String
  is_primary_key : Bool
  is_foreign_key : Bool
  foreign_table : Option String
  foreign_column : Option String
  description : String
  created_at : String
deriving Repr, DecidableEq

/-- The application database: connection ids, schema rows, embedding rows,
and the id counter standing in for UUID generation. -/
structure AppDB where
  connections : List Nat
  schemas : List TableSchemaRec
  embeddings : List TableEmbedding
  nextId : Nat
deriving Repr, DecidableEq

/-- `save_schema_metadata` (metadata_extractor.py lines 23-63): one
table_schemas row per fact, committed together. -/
def save_schema_metadata (db : AppDB) (db_id : Nat) (metadata : List SchemaFact)
    (now : String) : AppDB × List TableSchemaRec :=
  let rows := (metadata.enum).map (fun im =>
    { id := db.nextId + im.1
      db_id := db_id
      schema_name := im.2.schema_name
      table_name := im.2.table_name
      column_name := im.2.column_name
      is_primary_key := im.2.is_primary_key
      is_foreign_key := im.2.is_foreign_key
      foreign_table := im.2.foreign_table
      foreign_column := im.2.foreign_column
      description := "Column " ++ im.2.column_name ++ " of type " ++ im.2.data_type
        ++ " in table " ++ im.2.table_name
      created_at := now : TableSchemaRec })
  ({ db with schemas := db.schemas ++ rows, nextId := db.nextId + metadata.length }, rows)

/-- `store_embeddings` (embedder.py lines 40-78): build a TableEmbedding
row with a fresh id, add it and commit, and return it. -/
def store_embeddings (db : AppDB) (db_id : Nat) (schema_name table_name : String)
    (description : String) (embedding : List ℚ) (column_name : Option String)
    (now : String) : AppDB × TableEmbedding :=
  let rec0 : TableEmbedding :=
    { id := db.nextId
      db_id := db_id
      schema_name := schema_name
      table_name := table_name
      column_name := column_name
      description := description
      embedding := embedding
      created_at := now }
  ({ db with embeddings := db.embeddings ++ [rec0], nextId := db.nextId + 1 }, rec0)

/-- `batch_generate_and_store_embeddings` (embedder.py lines 80-112): embed
and store each unit in order.  The loop has no per-unit handler: a raised
embedding error propagates immediately, with the rows committed so far left
in place and the accumulated return list lost. -/
def batch_generate_and_store_embeddings
    (embedQ : String → Except String (List ℚ)) (db : AppDB) (db_id : Nat)
    (metadata_texts : List TextUnit) (now : String) :
    AppDB × Except String (List TableEmbedding) :=
  match metadata_texts with
  | [] => (db, Except.ok [])
  | item :: rest =>
    match embedQ item.description with
    | Except.error e => (db, Except.error e)
    | Except.ok v =>
      let p := store_embeddings db db_id item.schema_name item.table_name
        item.description v item.column_name now
      match batch_generate_and_store_embeddings embedQ p.1 db_id rest now with
      | (db2, Except.ok recs) => (db2, Except.ok (p.2 :: recs))
      | (db2, Except.error e) => (db2, Except.error e)

/-- The rows a batch run appends: one per unit until the first embedding
failure, carrying consecutive fresh ids. -/
def batchRecords (embedQ : String → Except String (List ℚ)) (startId : Nat)
    (db_id : Nat) (now : String) : List TextUnit → List TableEmbedding
  | [] => []
  | item :: rest =>
    match embedQ item.description with
    | Except.error _ => []
    | Except.ok v =>
      { id := startId
        db_id := db_id
        schema_name := item.schema_name
        table_name := item.table_name
        column_name := item.column_name
        description := item.description
        embedding := v
        created_at := now }
        :: batchRecords embedQ (startId + 1) db_id now rest

/-- Deleting a connection row (connection_service.py lines 92-94).  Only
the connection row is removed: no cascade is declared on the schema or
embedding tables. -/
def delete_connection (db : AppDB) (cid : Nat) : AppDB :=
  { db with connections := db.connections.filter (fun c => !(c == cid)) }

/-- `process_connection_schema` (connection_service.py lines 58-100):
extract the raw schema (an external call whose outcome is a parameter),
save the metadata rows, build the embedding texts and batch-embed them.
Any failure lands in the handler, which deletes the connection row and
reports the error. -/
def process_connection_schema (embedQ : String → Except String (List ℚ))
    (db : AppDB) (cid : Nat)
    (extractOutcome : Except String (List SchemaFact)) (now : String) :
    AppDB × String :=
  match extractOutcome with
  | Except.error e => (delete_connection db cid, "Error processing schema: " ++ e)
  | Except.ok schema_metadata =>
    let p1 := save_schema_metadata db cid schema_metadata now
    let texts := generate_embedding_texts schema_metadata
    match batch_generate_and_store_embeddings embedQ p1.1 cid texts now with
    | (db2, Except.ok _) => (db2, "Schema processed successfully")
    | (db2, Except.error e) => (delete_connection db2 cid, "Error processing schema: " ++ e)

/-! ### Query pipeline (query_generator.py lines 44-109) -/

/-- Splitting a schema.table key back into its parts
(query_generator.py line 93); modelled total on the first dot. -/
def splitTableKey (k : String) : String × String :=
  let parts := k.splitOn (".")
  (parts.headD (""), (parts.drop 1).headD (""))

/-- `generate_query_from_search` (query_generator.py lines 44-109): embed
the question, search the scoped store, return the no-schema sentinel on an
empty result, otherwise expand the context of every retrieved table (set
iteration order modelled as first-seen order) and synthesise SQL. -/
def generate_query_from_search (embedQ : String → List ℚ) (apiKey : String)
    (llm : Option (String → Except String String)) (store : List TableEmbedding)
    (user_query : String) (db_id : Nat) (k : Nat) :
    String × List RetrievalHit :=
  let query_embedding := embedQ user_query
  let relevant_schema := query_vector_store store query_embedding (some db_id) k
  if relevant_schema.isEmpty then
    ("-- No relevant schema found for the query", [])
  else
    let unique_tables := firstSeen (relevant_schema.map (fun item =>
      item.schema_name ++ "." ++ item.table_name))
    let table_contexts := (unique_tables.map (fun key =>
      get_table_context store db_id (splitTableKey key).2 (some (splitTableKey key).1))).flatten
    (generate_sql_with_llm apiKey llm user_query table_contexts, relevant_schema)

/-! ### Qdrant-backed store (app/utils/embedding.py) -/

/-- A Qdrant point: integer id, vector, and a payload holding the text and
the optional metadata dict (a missing or empty metadata list yields the
empty payload, modelled as none). -/
structure QPoint where
  id : Nat
  vector : List ℚ
  payloadText : String
  payloadMeta : Option String
deriving Repr, DecidableEq

/-- The payload metadata expression: the i-th dict when a metadata list is
given and non-empty, else the empty dict. -/
def pyMeta (metadata : Option (List String)) (i : Nat) : Option String :=
  match metadata with
  | none => none
  | some [] => none
  | some ms => ms.get? i

/-- Qdrant upsert of a single point: replace the point with the same id if
one exists, otherwise append. -/
def upsertPoint (coll : List QPoint) (p : QPoint) : List QPoint :=
  if coll.any (fun q => q.id == p.id) then
    coll.map (fun q => if q.id == p.id then p else q)
  else coll ++ [p]

/-- Qdrant upsert of a batch of points, in order. -/
def qdrantUpsert (coll : List QPoint) (points : List QPoint) : List QPoint :=
  points.foldl upsertPoint coll

namespace Qdrant

/-- `store_embeddings` (utils/embedding.py lines 19-46): embed the texts,
build one point per text whose id is its index in the submitted list
(enumerate over zip), and upsert the batch into the collection. -/
def store_embeddings (embedF : String → List ℚ) (coll : List QPoint)
    (texts : List String) (metadata : Option (List String)) : List QPoint :=
  let embeddings := texts.map embedF
  let points := ((texts.zip embeddings).enum).map (fun ip =>
    { id := ip.1
      vector := ip.2.2
      payloadText := ip.2.1
      payloadMeta := pyMeta metadata ip.1 : QPoint })
  qdrantUpsert coll points

end Qdrant

/-- The points one `Qdrant.store_embeddings` call builds, starting at a
given index. -/
def qdrantPoints (embedF : String → List ℚ) (metadata : Option (List String))
    (i : Nat) : List String → List QPoint
  | [] => []
  | t :: ts =>
    { id := i
      vector := embedF t
      payloadText := t
      payloadMeta := pyMeta metadata i : QPoint } :: qdrantPoints embedF metadata (i + 1) ts

/-- The text stored at a given point id, if any. -/
def lookupText (coll : List QPoint) (i : Nat) : Option String :=
  (coll.find? (fun p => p.id == i)).map (·.payloadText)

/-! ### Remaining specification-side definitions -/

/-- The group a key denotes, read off directly from the fact list: its
facts in order, with the identity fields of the first of them. -/
def groupFor (metadata : List SchemaFact) (k : String) : TableGroup :=
  let fs := metadata.filter (fun f => tableKey f == k)
  { schema_name := ((fs.head?).map (·.schema_name)).getD ("")
    table_name := ((fs.head?).map (·.table_name)).getD ("")
    columns := fs }

/-- Closed form of the grouping dict: one entry per first-seen key. -/
def reprTables (metadata : List SchemaFact) : List (String × TableGroup) :=
  (firstSeen (metadata.map tableKey)).map (fun k => (k, groupFor metadata k))

/-- Well-formedness of the application database: embedding-row ids are
distinct and below the id counter (the model of UUID freshness). -/
def AppDB.WF (db : AppDB) : Prop :=
  (db.embeddings.map (·.id)).Nodup ∧ ∀ r ∈ db.embeddings, r.id < db.nextId

/-! ## Claim theorems -/

/-- C6: for every connection whose background schema processing fails at any
stage (schema extraction, metadata save, or embedding), the orchestrator
deletes the connection row: either processing succeeded, or the connection
id is no longer among the stored connections. -/
theorem schema_failure_deletes_connection
    (embedQ : String → Except String (List ℚ)) (db : AppDB) (cid : Nat)
    (extractOutcome : Except String (List SchemaFact)) (now : String) :
    (process_connection_schema embedQ db cid extractOutcome now).2
        = "Schema processed successfully"
      ∨ cid ∉ (process_connection_schema embedQ db cid extractOutcome now).1.connections := by
  unfold process_connection_schema
  cases extractOutcome with
  | error e =>
    right
    simp [delete_connection, List.mem_filter]
  | ok md =>
    rcases hb : batch_generate_and_store_embeddings embedQ
        (save_schema_metadata db cid md now).1 cid (generate_embedding_texts md) now
      with ⟨db2, res⟩
    cases res with
    | ok recs => left; simp only [hb]
    | error e =>
      right
      simp only [hb]
      simp [delete_connection, List.mem_filter]

/-- C7: searching a db_id that has no stored embedding rows returns the
empty list, and the query pipeline given that empty retrieval returns the
no-relevant-schema sentinel, independently of any configured model. -/
theorem empty_retrieval_sentinel (embedQ : String → List ℚ) (apiKey : String)
    (llm : Option (String → Except String String)) (store : List TableEmbedding)
    (user_query : String) (d k : Nat)
    (h : store.filter (fun r => r.db_id == d) = []) :
    query_vector_store store (embedQ user_query) (some d) k = []
      ∧ generate_query_from_search embedQ apiKey llm store user_query d k
          = ("-- No relevant schema found for the query", []) := by
  have h1 : query_vector_store store (embedQ user_query) (some d) k = [] := by
    unfold query_vector_store scopeRecords
    simp [h]
  refine ⟨h1, ?_⟩
  unfold generate_query_from_search
  simp [h1]

/-- Witness for C7 at a concrete empty store. -/
theorem empty_retrieval_sentinel_w :
    query_vector_store [] ((fun _ => []) ("q")) (some 0) 5 = []
      ∧ generate_query_from_search (fun _ => []) ("") none [] ("q") 0 5
          = ("-- No relevant schema found for the query", []) :=
  empty_retrieval_sentinel (fun _ => []) ("") none [] ("q") 0 5 rfl

/-- C3 counterexample: in the utils-layer synthesizer a raised model error
is re-raised, so an exception from model invocation does propagate to the
caller instead of being converted into a SQL comment string. -/
theorem generate_query_reraises_cex :
    generate_query (fun _ => Except.error ("boom")) ("q")
        ("## Available Tables in Database\n- t")
      = Except.error ("boom") := by
  rfl

/-- C3 amended: the services-layer query synthesizer converts any raised
model error into a SQL comment embedding the error text and the original
question (for generation) or the original query (for refinement); the
utils-layer generate_query instead re-raises model errors. -/
theorem llm_errors_become_sql_comments (apiKey : String)
    (f : String → Except String String) (e user_query original_query feedback : String)
    (ctx : List CtxRecord) (hak : apiKey ≠ "") (hf : ∀ p, f p = Except.error e) :
    generate_sql_with_llm apiKey (some f) user_query ctx
        = "-- Error generating SQL with LLM: " ++ e
            ++ "\n-- Natural language query: " ++ user_query
      ∧ refine_query_with_llm apiKey (some f) original_query feedback ctx
        = "-- Error refining SQL with LLM: " ++ e ++ "\n" ++ original_query := by
  constructor
  · simp only [generate_sql_with_llm, if_neg hak, hf]
  · simp only [refine_query_with_llm, if_neg hak, hf]

/-- Witness for C3 (amended) at a concrete failing model. -/
theorem llm_errors_become_sql_comments_w :
    generate_sql_with_llm ("k") (some (fun _ => Except.error ("E"))) ("q") []
      = "-- Error generating SQL with LLM: E\n-- Natural language query: q" :=
  (llm_errors_become_sql_comments ("k") (fun _ => Except.error ("E")) ("E") ("q") ("x")
    ("y") [] (by decide) (fun _ => rfl)).1

/-- C5: the rule-based fallback targets the first retrieved table whose
lower-cased name occurs in the lower-cased question (else the first
retrieved table) and answers COUNT(*) for count / how-many questions, else
a LIMIT 10 scan; in particular with tables orders and users and the
question about how many orders it returns exactly the COUNT query. -/
theorem simple_query_generator_fallback (question schema_info : String)
    (hne : parseSchemaTables schema_info ≠ []) :
    simple_query_generator question schema_info
      = (let tables := parseSchemaTables schema_info
         let target := (tables.find? (fun t =>
           strContains (strLower question) (strLower t))).getD (tables.headD (""))
         if [("count" : String), "how many"].any (fun w => strContains (strLower question) w) then
           "SELECT COUNT(*) FROM " ++ target
         else "SELECT * FROM " ++ target ++ " LIMIT 10")
      ∧ simple_query_generator ("how many orders are there")
          ("## Available Tables in Database\n- orders\n- users\n")
        = "SELECT COUNT(*) FROM orders" := by
  constructor
  · unfold simple_query_generator
    have hemp : (parseSchemaTables schema_info).isEmpty = false := by
      simp [List.isEmpty_iff, hne]
    simp only [hemp, Bool.false_eq_true, if_false]
    cases hfind : (parseSchemaTables schema_info).find? (fun t =>
        strContains (strLower question) (strLower t)) with
    | none => simp [hfind]
    | some t => simp [hfind]
  · decide

/-- Witness for C5 at the concrete scenario of the claim. -/
theorem simple_query_generator_fallback_w :
    simple_query_generator ("how many orders are there")
        ("## Available Tables in Database\n- orders\n- users\n")
      = "SELECT COUNT(*) FROM orders" :=
  (simple_query_generator_fallback ("how many orders are there")
    ("## Available Tables in Database\n- orders\n- users\n") (by decide)).2

/-- The final database state of a batch run: the committed rows are
appended and the id counter advances by their number; nothing else
changes. -/
theorem batch_state (embedQ : String → Except String (List ℚ)) (cid : Nat)
    (now : String) :
    ∀ (units : List TextUnit) (db : AppDB),
      (batch_generate_and_store_embeddings embedQ db cid units now).1
        = { db with
            embeddings := db.embeddings ++ batchRecords embedQ db.nextId cid now units
            nextId := db.nextId + (batchRecords embedQ db.nextId cid now units).length }
  | [], db => by simp [batch_generate_and_store_embeddings, batchRecords]
  | item :: rest, db => by
    simp only [batch_generate_and_store_embeddings, batchRecords]
    cases he : embedQ item.description with
    | error e => simp
    | ok v =>
      dsimp only
      have ih := batch_state embedQ cid now rest
        (store_embeddings db cid item.schema_name item.table_name item.description v
          item.column_name now).1
      rcases hb : batch_generate_and_store_embeddings embedQ
          (store_embeddings db cid item.schema_name item.table_name item.description v
            item.column_name now).1 cid rest now with ⟨db2, res⟩
      rw [hb] at ih
      cases res with
      | ok recs =>
        dsimp only at ih ⊢
        rw [ih]
        simp [store_embeddings, List.append_assoc]
        omega
      | error e =>
        dsimp only at ih ⊢
        rw [ih]
        simp [store_embeddings, List.append_assoc]
        omega

/-- The return value of a batch run in which every embedding call
succeeds: the full list of new rows. -/
theorem batch_result_ok (embedQ : String → Except String (List ℚ)) (cid : Nat)
    (now : String) :
    ∀ (units : List TextUnit) (db : AppDB),
      (∀ u ∈ units, ∃ v, embedQ u.description = Except.ok v) →
      (batch_generate_and_store_embeddings embedQ db cid units now).2
        = Except.ok (batchRecords embedQ db.nextId cid now units)
  | [], db, _ => by simp [batch_generate_and_store_embeddings, batchRecords]
  | item :: rest, db, hok => by
    obtain ⟨v, hv⟩ := hok item (List.mem_cons_self _ _)
    simp only [batch_generate_and_store_embeddings, batchRecords, hv]
    have ih := batch_result_ok embedQ cid now rest
      (store_embeddings db cid item.schema_name item.table_name item.description v
        item.column_name now).1
      (fun u hu => hok u (List.mem_cons_of_mem _ hu))
    rcases hb : batch_generate_and_store_embeddings embedQ
        (store_embeddings db cid item.schema_name item.table_name item.description v
          item.column_name now).1 cid rest now with ⟨db2, res⟩
    rw [hb] at ih
    cases res with
    | ok recs =>
      dsimp only at ih ⊢
      simp [store_embeddings] at ih ⊢
      exact ih
    | error e =>
      dsimp only at ih
      simp at ih

/-- Membership in a consecutive range. -/
theorem mem_range1 {s n m : Nat} : m ∈ List.range' s n ↔ s ≤ m ∧ m < s + n := by
  rw [List.mem_range']
  constructor
  · rintro ⟨i, hi, rfl⟩; omega
  · rintro ⟨h1, h2⟩; exact ⟨m - s, by omega, by omega⟩

/-- When every embedding call succeeds, a batch stores one row per unit. -/
theorem batchRecords_length_ok (embedQ : String → Except String (List ℚ))
    (cid : Nat) (now : String) :
    ∀ (units : List TextUnit) (s : Nat),
      (∀ u ∈ units, ∃ v, embedQ u.description = Except.ok v) →
      (batchRecords embedQ s cid now units).length = units.length
  | [], s, _ => rfl
  | item :: rest, s, hok => by
    obtain ⟨v, hv⟩ := hok item (List.mem_cons_self _ _)
    simp only [batchRecords, hv, List.length_cons]
    rw [batchRecords_length_ok embedQ cid now rest (s + 1)
      (fun u hu => hok u (List.mem_cons_of_mem _ hu))]

/-- The ids of the rows stored by one batch run are consecutive, starting
at the id counter. -/
theorem batchRecords_ids (embedQ : String → Except String (List ℚ))
    (cid : Nat) (now : String) :
    ∀ (units : List TextUnit) (s : Nat),
      (batchRecords embedQ s cid now units).map (·.id)
        = List.range' s (batchRecords embedQ s cid now units).length
  | [], s => rfl
  | item :: rest, s => by
    cases hv : embedQ item.description with
    | error e => simp [batchRecords, hv]
    | ok v =>
      simp only [batchRecords, hv, List.map_cons, List.length_cons, List.range'_succ]
      rw [batchRecords_ids embedQ cid now rest (s + 1)]

/-- Every unit of an all-successful batch has a stored row carrying its
description and the db id. -/
theorem batchRecords_exists_desc (embedQ : String → Except String (List ℚ))
    (cid : Nat) (now : String) :
    ∀ (units : List TextUnit) (s : Nat),
      (∀ u ∈ units, ∃ v, embedQ u.description = Except.ok v) →
      ∀ u ∈ units, ∃ r ∈ batchRecords embedQ s cid now units,
        r.db_id = cid ∧ r.description = u.description
  | [], _, _, u, hu => absurd hu (List.not_mem_nil u)
  | item :: rest, s, hok, u, hu => by
    obtain ⟨v, hv⟩ := hok item (List.mem_cons_self _ _)
    simp only [batchRecords, hv]
    rcases List.mem_cons.mp hu with rfl | hu2
    · exact ⟨_, List.mem_cons_self _ _, rfl, rfl⟩
    · obtain ⟨r, hr, h1, h2⟩ := batchRecords_exists_desc embedQ cid now rest (s + 1)
        (fun w hw => hok w (List.mem_cons_of_mem _ hw)) u hu2
      exact ⟨r, List.mem_cons_of_mem _ hr, h1, h2⟩

/-- A batch run preserves well-formedness: the freshly assigned ids do not
collide with any stored row. -/
theorem batch_WF (embedQ : String → Except String (List ℚ)) (db : AppDB)
    (cid : Nat) (units : List TextUnit) (now : String) (hwf : AppDB.WF db) :
    AppDB.WF (batch_generate_and_store_embeddings embedQ db cid units now).1 := by
  obtain ⟨hw1, hw2⟩ := hwf
  rw [batch_state]
  constructor
  · simp only [List.map_append]
    refine List.nodup_append.2 ⟨hw1, ?_, ?_⟩
    · rw [batchRecords_ids]
      exact List.nodup_range' _ _
    · intro a ha hb
      obtain ⟨r, hr, rfl⟩ := List.mem_map.mp ha
      have h1 := hw2 r hr
      rw [batchRecords_ids] at hb
      have h2 := mem_range1.mp hb
      omega
  · intro r hr
    simp only at hr ⊢
    rcases List.mem_append.mp hr with h | h
    · have := hw2 r h
      omega
    · have hm : r.id ∈ (batchRecords embedQ db.nextId cid now units).map (·.id) :=
        List.mem_map_of_mem _ h
      rw [batchRecords_ids] at hm
      have := mem_range1.mp hm
      omega

/-- A batch run over a prefix of successes followed by a failing unit
stores exactly the rows of the prefix. -/
theorem batchRecords_append_fail (embedQ : String → Except String (List ℚ))
    (cid : Nat) (now : String) (item : TextUnit) (post : List TextUnit) (e : String)
    (hfail : embedQ item.description = Except.error e) :
    ∀ (pre : List TextUnit) (s : Nat),
      batchRecords embedQ s cid now (pre ++ item :: post)
        = batchRecords embedQ s cid now pre
  | [], s => by simp [batchRecords, hfail]
  | u :: us, s => by
    cases hv : embedQ u.description with
    | error e2 => simp [batchRecords, hv]
    | ok v =>
      simp only [List.cons_append, batchRecords, hv, List.cons.injEq, true_and]
      exact batchRecords_append_fail embedQ cid now item post e hfail us (s + 1)

/-- The returned outcome of a batch whose first failure is at the given
unit: the raised error, unhandled. -/
theorem batch_result_fail (embedQ : String → Except String (List ℚ))
    (cid : Nat) (now : String) (item : TextUnit) (post : List TextUnit) (e : String)
    (hfail : embedQ item.description = Except.error e) :
    ∀ (pre : List TextUnit) (db : AppDB),
      (∀ u ∈ pre, ∃ v, embedQ u.description = Except.ok v) →
      (batch_generate_and_store_embeddings embedQ db cid (pre ++ item :: post) now).2
        = Except.error e
  | [], db, _ => by
    simp [batch_generate_and_store_embeddings, hfail]
  | u :: us, db, hok => by
    obtain ⟨v, hv⟩ := hok u (List.mem_cons_self _ _)
    simp only [List.cons_append, batch_generate_and_store_embeddings, hv]
    have ih := batch_result_fail embedQ cid now item post e hfail us
      (store_embeddings db cid u.schema_name u.table_name u.description v
        u.column_name now).1
      (fun w hw => hok w (List.mem_cons_of_mem _ hw))
    rcases hb : batch_generate_and_store_embeddings embedQ
        (store_embeddings db cid u.schema_name u.table_name u.description v
          u.column_name now).1 cid (us ++ item :: post) now with ⟨db2, res⟩
    rw [hb] at ih
    cases res with
    | ok recs => simp at ih
    | error e2 =>
      dsimp only at ih ⊢
      exact ih

/-- C4 counterexample: with three units whose second embedding call
throws, the batch aborts — the caller receives the raised error rather
than the subset of stored rows, and the third unit is never stored (only
the first row exists afterwards). -/
theorem batch_abort_cex :
    (batch_generate_and_store_embeddings
        (fun s => if s == "B" then Except.error ("boom") else Except.ok [1])
        ⟨[], [], [], 0⟩ 7
        [⟨"s", "t", none, "A"⟩, ⟨"s", "t", some ("c"), "B"⟩, ⟨"s", "t", some ("d"), "C"⟩]
        ("t")).2
      = Except.error ("boom")
    ∧ ((batch_generate_and_store_embeddings
        (fun s => if s == "B" then Except.error ("boom") else Except.ok [1])
        ⟨[], [], [], 0⟩ 7
        [⟨"s", "t", none, "A"⟩, ⟨"s", "t", some ("c"), "B"⟩, ⟨"s", "t", some ("d"), "C"⟩]
        ("t")).1.embeddings.map (fun r => r.description))
      = ["A"] :=
  ⟨rfl, rfl⟩

/-- C4 amended: when the embedding call of one unit throws, the batch
aborts at that unit: the rows committed for the units before it remain
stored uncorrupted, the units after it are not attempted, and the caller
receives the raised error instead of the successful subset. -/
theorem batch_aborts_at_first_embedding_error
    (embedQ : String → Except String (List ℚ)) (db : AppDB) (cid : Nat)
    (pre : List TextUnit) (item : TextUnit) (post : List TextUnit) (now e : String)
    (hpre : ∀ u ∈ pre, ∃ v, embedQ u.description = Except.ok v)
    (hfail : embedQ item.description = Except.error e) :
    (batch_generate_and_store_embeddings embedQ db cid (pre ++ item :: post) now).2
        = Except.error e
      ∧ (batch_generate_and_store_embeddings embedQ db cid (pre ++ item :: post) now).1.embeddings
        = db.embeddings ++ batchRecords embedQ db.nextId cid now pre := by
  refine ⟨batch_result_fail embedQ cid now item post e hfail pre db hpre, ?_⟩
  rw [batch_state]
  simp only []
  rw [batchRecords_append_fail embedQ cid now item post e hfail pre db.nextId]

/-- Witness for C4 (amended) at a concrete failing batch. -/
theorem batch_aborts_at_first_embedding_error_w :
    (batch_generate_and_store_embeddings
        (fun s => if s == "B" then Except.error ("boom") else Except.ok [1])
        ⟨[], [], [], 0⟩ 7
        ([⟨"s", "t", none, "A"⟩] ++ ⟨"s", "t", some ("c"), "B"⟩ :: [⟨"s", "t", some ("d"), "C"⟩])
        ("t")).2
      = Except.error ("boom") :=
  (batch_aborts_at_first_embedding_error
    (fun s => if s == "B" then Except.error ("boom") else Except.ok [1])
    ⟨[], [], [], 0⟩ 7 [⟨"s", "t", none, "A"⟩] ⟨"s", "t", some ("c"), "B"⟩
    [⟨"s", "t", some ("d"), "C"⟩] ("t") ("boom")
    (by intro u hu; simp at hu; subst hu; exact ⟨[1], rfl⟩) rfl).1

/-- C8: schema processing is not idempotent — running the embed-and-store
batch twice on the same units appends one fresh duplicate row per unit per
run (2·n new rows with distinct ids), and every unit has at least two
stored rows carrying its description afterwards. -/
theorem schema_processing_not_idempotent
    (embedQ : String → Except String (List ℚ)) (db : AppDB) (cid : Nat)
    (units : List TextUnit) (now1 now2 : String)
    (hok : ∀ u ∈ units, ∃ v, embedQ u.description = Except.ok v)
    (hwf : AppDB.WF db) :
    ((batch_generate_and_store_embeddings embedQ
        (batch_generate_and_store_embeddings embedQ db cid units now1).1
        cid units now2).1.embeddings.length
      = db.embeddings.length + 2 * units.length)
    ∧ AppDB.WF (batch_generate_and_store_embeddings embedQ
        (batch_generate_and_store_embeddings embedQ db cid units now1).1
        cid units now2).1
    ∧ ∀ u ∈ units,
        2 ≤ ((batch_generate_and_store_embeddings embedQ
          (batch_generate_and_store_embeddings embedQ db cid units now1).1
          cid units now2).1.embeddings.filter (fun r =>
            r.db_id == cid && r.description == u.description)).length := by
  refine ⟨?_, batch_WF _ _ _ _ _ (batch_WF _ _ _ _ _ hwf), ?_⟩
  · rw [batch_state, batch_state]
    simp only [List.length_append]
    rw [batchRecords_length_ok embedQ cid now2 units _ hok,
      batchRecords_length_ok embedQ cid now1 units _ hok]
    omega
  · intro u hu
    rw [batch_state, batch_state]
    simp only [List.filter_append, List.length_append]
    obtain ⟨r1, hr1, h11, h12⟩ :=
      batchRecords_exists_desc embedQ cid now1 units db.nextId hok u hu
    obtain ⟨r2, hr2, h21, h22⟩ :=
      batchRecords_exists_desc embedQ cid now2 units
        (db.nextId + (batchRecords embedQ db.nextId cid now1 units).length) hok u hu
    have c1 : 0 < ((batchRecords embedQ db.nextId cid now1 units).filter (fun r =>
        r.db_id == cid && r.description == u.description)).length := by
      apply List.length_pos.mpr
      apply List.ne_nil_of_mem (a := r1)
      refine List.mem_filter.mpr ⟨hr1, ?_⟩
      simp [h11, h12]
    have c2 : 0 < ((batchRecords embedQ
        (db.nextId + (batchRecords embedQ db.nextId cid now1 units).length)
        cid now2 units).filter (fun r =>
          r.db_id == cid && r.description == u.description)).length := by
      apply List.length_pos.mpr
      apply List.ne_nil_of_mem (a := r2)
      refine List.mem_filter.mpr ⟨hr2, ?_⟩
      simp [h21, h22]
    omega

/-- Witness for C8 at a concrete unit list. -/
theorem schema_processing_not_idempotent_w :
    ((batch_generate_and_store_embeddings (fun _ => Except.ok [1])
        (batch_generate_and_store_embeddings (fun _ => Except.ok [1])
          ⟨[], [], [], 0⟩ 3 [⟨"s", "t", none, "A"⟩] ("n1")).1
        3 [⟨"s", "t", none, "A"⟩] ("n2")).1.embeddings.length
      = ([] : List TableEmbedding).length + 2 * 1) :=
  (schema_processing_not_idempotent (fun _ => Except.ok [1]) ⟨[], [], [], 0⟩ 3
    [⟨"s", "t", none, "A"⟩] ("n1") ("n2")
    (fun _ _ => ⟨[1], rfl⟩) ⟨List.nodup_nil, fun r hr => absurd hr (List.not_mem_nil r)⟩).1

/-- Ids of the points built from an indexed text list. -/
theorem mem_qdrantPoints_id (embedF : String → List ℚ) (md : Option (List String)) :
    ∀ (ts : List String) (i : Nat) (p : QPoint),
      p ∈ qdrantPoints embedF md i ts → i ≤ p.id ∧ p.id < i + ts.length
  | [], _, p, hp => absurd hp (List.not_mem_nil p)
  | t :: ts, i, p, hp => by
    rcases List.mem_cons.mp hp with rfl | hp2
    · simp
    · have := mem_qdrantPoints_id embedF md ts (i + 1) p hp2
      simp only [List.length_cons]
      omega

/-- Point-id list of one submission. -/
theorem qdrantPoints_ids (embedF : String → List ℚ) (md : Option (List String)) :
    ∀ (ts : List String) (i : Nat),
      (qdrantPoints embedF md i ts).map (·.id) = List.range' i ts.length
  | [], _ => rfl
  | t :: ts, i => by
    simp only [qdrantPoints, List.map_cons, List.length_cons, List.range'_succ]
    rw [qdrantPoints_ids embedF md ts (i + 1)]

/-- Length of one submission. -/
theorem qdrantPoints_length (embedF : String → List ℚ) (md : Option (List String)) :
    ∀ (ts : List String) (i : Nat), (qdrantPoints embedF md i ts).length = ts.length
  | [], _ => rfl
  | t :: ts, i => by
    simp only [qdrantPoints, List.length_cons]
    rw [qdrantPoints_length embedF md ts (i + 1)]

/-- The point list a store call builds is the indexed point list. -/
theorem store_points_eq (embedF : String → List ℚ) (md : Option (List String)) :
    ∀ (ts : List String) (i : Nat),
      ((List.zipWith Prod.mk ts (ts.map embedF)).enumFrom i).map (fun ip =>
          ({ id := ip.1, vector := ip.2.2, payloadText := ip.2.1,
             payloadMeta := pyMeta md ip.1 } : QPoint))
        = qdrantPoints embedF md i ts
  | [], _ => rfl
  | t :: ts, i => by
    simp only [List.map_cons, List.zipWith_cons_cons, List.enumFrom, qdrantPoints]
    rw [store_points_eq embedF md ts (i + 1)]

/-- `Qdrant.store_embeddings` in terms of the indexed point list. -/
theorem qdrant_store_eq (embedF : String → List ℚ) (coll : List QPoint)
    (texts : List String) (md : Option (List String)) :
    Qdrant.store_embeddings embedF coll texts md
      = qdrantUpsert coll (qdrantPoints embedF md 0 texts) := by
  unfold Qdrant.store_embeddings
  dsimp only
  rw [List.enum, List.zip, store_points_eq]

/-- Upserting a submission into a collection holding a prefix of
small-id points followed by the points of an earlier submission: the
matching ids are overwritten in place and the longer tail, if any, is
appended. -/
theorem upsert_qdrantPoints (f g : String → List ℚ) (md1 md2 : Option (List String)) :
    ∀ (t2 : List String) (k : Nat) (pre : List QPoint) (t1 : List String),
      (∀ p ∈ pre, p.id < k) →
      qdrantUpsert (pre ++ qdrantPoints f md1 k t1) (qdrantPoints g md2 k t2)
        = pre ++ qdrantPoints g md2 k t2 ++ (qdrantPoints f md1 k t1).drop t2.length
  | [], k, pre, t1, hpre => by simp [qdrantUpsert, qdrantPoints]
  | t :: ts, k, pre, t1, hpre => by
    have hstep : qdrantUpsert (pre ++ qdrantPoints f md1 k t1)
        (qdrantPoints g md2 k (t :: ts))
      = qdrantUpsert (upsertPoint (pre ++ qdrantPoints f md1 k t1)
          (⟨k, g t, t, pyMeta md2 k⟩ : QPoint))
          (qdrantPoints g md2 (k + 1) ts) := by
      simp [qdrantUpsert, qdrantPoints]
    rw [hstep]
    cases t1 with
    | nil =>
      have hany : ((pre ++ qdrantPoints f md1 k []).any (fun q => q.id == k)) = false := by
        simp only [qdrantPoints, List.append_nil]
        rw [List.any_eq_false]
        intro q hq
        have := hpre q hq
        simp only [beq_iff_eq]
        omega
      have hup : upsertPoint (pre ++ qdrantPoints f md1 k [])
            (⟨k, g t, t, pyMeta md2 k⟩ : QPoint)
          = (pre ++ [(⟨k, g t, t, pyMeta md2 k⟩ : QPoint)])
              ++ qdrantPoints f md1 (k + 1) [] := by
        simp only [upsertPoint]
        rw [if_neg (by simp [hany])]
        simp [qdrantPoints]
      rw [hup]
      rw [upsert_qdrantPoints f g md1 md2 ts (k + 1)
        (pre ++ [(⟨k, g t, t, pyMeta md2 k⟩ : QPoint)]) []
        (by
          intro p hp
          rcases List.mem_append.mp hp with h | h
          · have := hpre p h; omega
          · simp at h; subst h; show k < k + 1; omega)]
      simp [qdrantPoints]
    | cons s ss =>
      have hmem : (⟨k, f s, s, pyMeta md1 k⟩ : QPoint)
          ∈ pre ++ qdrantPoints f md1 k (s :: ss) := by
        apply List.mem_append_right
        simp [qdrantPoints]
      have hany : ((pre ++ qdrantPoints f md1 k (s :: ss)).any
          (fun q => q.id == k)) = true := by
        rw [List.any_eq_true]
        exact ⟨_, hmem, by simp⟩
      have hrepl : upsertPoint (pre ++ qdrantPoints f md1 k (s :: ss))
          (⟨k, g t, t, pyMeta md2 k⟩ : QPoint)
        = (pre ++ [(⟨k, g t, t, pyMeta md2 k⟩ : QPoint)])
            ++ qdrantPoints f md1 (k + 1) ss := by
        simp only [upsertPoint]
        rw [if_pos hany]
        simp only [List.map_append]
        rw [List.append_assoc]
        congr 1
        · conv_rhs => rw [← List.map_id pre]
          apply List.map_congr_left
          intro q hq
          have := hpre q hq
          have hne : (q.id == k) = false := by
            rw [beq_eq_false_iff_ne]
            omega
          simp [hne]
        · simp only [qdrantPoints, List.map_cons]
          have hk : (k == k) = true := by simp
          rw [hk]
          simp only [if_true, List.singleton_append, List.cons.injEq, true_and]
          conv_rhs => rw [← List.map_id (qdrantPoints f md1 (k + 1) ss)]
          apply List.map_congr_left
          intro q hq
          have := mem_qdrantPoints_id f md1 ss (k + 1) q hq
          have hne : (q.id == k) = false := by
            rw [beq_eq_false_iff_ne]
            omega
          simp [hne]
      rw [hrepl]
      rw [upsert_qdrantPoints f g md1 md2 ts (k + 1)
        (pre ++ [(⟨k, g t, t, pyMeta md2 k⟩ : QPoint)]) ss
        (by
          intro p hp
          rcases List.mem_append.mp hp with h | h
          · have := hpre p h; omega
          · simp at h; subst h; show k < k + 1; omega)]
      simp [qdrantPoints]

/-- Locating a point by id inside a submission followed by anything. -/
theorem find_qdrantPoints (embedF : String → List ℚ) (md : Option (List String)) :
    ∀ (ts : List String) (i : Nat) (hi : i < ts.length) (k : Nat) (rest : List QPoint),
      List.find? (fun p => p.id == k + i) (qdrantPoints embedF md k ts ++ rest)
        = some (⟨k + i, embedF (ts.get ⟨i, hi⟩), ts.get ⟨i, hi⟩,
            pyMeta md (k + i)⟩ : QPoint)
  | [], i, hi, _, _ => absurd hi (by simp)
  | t :: ts, 0, hi, k, rest => by
    simp [qdrantPoints]
  | t :: ts, i + 1, hi, k, rest => by
    have hne : ((k : Nat) == k + (i + 1)) = false := by
      rw [beq_eq_false_iff_ne]
      omega
    simp only [qdrantPoints, List.cons_append, List.find?_cons, hne]
    have hstep : k + (i + 1) = (k + 1) + i := by omega
    rw [hstep]
    have hi2 : i < ts.length := Nat.lt_of_succ_lt_succ hi
    rw [find_qdrantPoints embedF md ts i hi2 (k + 1) rest]
    rfl

/-- C10: in the Qdrant-backed store each submitted text is stored under the
point id equal to its index in the submitted list, so a second call upserts
the same ids: afterwards the point at index i holds the second list's text,
and the collection holds max(n2, n1) points rather than n1 + n2 — replace
semantics, not append semantics. -/
theorem qdrant_store_replace_semantics (embedF : String → List ℚ)
    (t1 t2 : List String) (md1 md2 : Option (List String)) :
    ((Qdrant.store_embeddings embedF [] t1 md1).map (·.id) = List.range t1.length)
    ∧ (∀ (i : Nat) (hi : i < t2.length),
        lookupText (Qdrant.store_embeddings embedF
            (Qdrant.store_embeddings embedF [] t1 md1) t2 md2) i
          = some (t2.get ⟨i, hi⟩))
    ∧ (Qdrant.store_embeddings embedF
        (Qdrant.store_embeddings embedF [] t1 md1) t2 md2).length
      = max t2.length t1.length := by
  have hc1 : Qdrant.store_embeddings embedF [] t1 md1
      = qdrantPoints embedF md1 0 t1 := by
    rw [qdrant_store_eq]
    have := upsert_qdrantPoints embedF embedF md1 md1 t1 0 [] []
      (by intro p hp; exact absurd hp (List.not_mem_nil p))
    simp only [qdrantPoints, List.nil_append, List.drop_nil] at this
    simpa using this
  have hc2 : Qdrant.store_embeddings embedF
      (Qdrant.store_embeddings embedF [] t1 md1) t2 md2
      = qdrantPoints embedF md2 0 t2 ++ (qdrantPoints embedF md1 0 t1).drop t2.length := by
    rw [hc1, qdrant_store_eq]
    have := upsert_qdrantPoints embedF embedF md1 md2 t2 0 [] t1
      (by intro p hp; exact absurd hp (List.not_mem_nil p))
    simpa using this
  refine ⟨?_, ?_, ?_⟩
  · rw [hc1, qdrantPoints_ids]
    rw [List.range_eq_range']
  · intro i hi
    rw [hc2]
    unfold lookupText
    have := find_qdrantPoints embedF md2 t2 i hi 0
      ((qdrantPoints embedF md1 0 t1).drop t2.length)
    simp only [Nat.zero_add] at this
    rw [this]
    rfl
  · rw [hc2]
    simp only [List.length_append, List.length_drop]
    rw [qdrantPoints_length, qdrantPoints_length]
    omega

/-- Witness for C10 at a concrete double store. -/
theorem qdrant_store_replace_semantics_w :
    lookupText (Qdrant.store_embeddings (fun _ => [])
        (Qdrant.store_embeddings (fun _ => []) [] ["a", "b"] none) ["c"] none) 0
      = some ("c") :=
  (qdrant_store_replace_semantics (fun _ => []) ["a", "b"] ["c"] none none).2.1 0
    (by decide)

/-- Membership in the first-seen fold with an arbitrary accumulator. -/
theorem mem_firstSeen_aux {γ : Type} [DecidableEq γ] :
    ∀ (l : List γ) (acc : List γ) (k : γ),
      (k ∈ l.foldl (fun a x => if x ∈ a then a else a ++ [x]) acc) ↔ (k ∈ acc ∨ k ∈ l)
  | [], acc, k => by simp
  | x :: xs, acc, k => by
    simp only [List.foldl_cons]
    rw [mem_firstSeen_aux xs _ k]
    by_cases hx : x ∈ acc
    · simp only [if_pos hx, List.mem_cons]
      constructor
      · rintro (h | h)
        · exact Or.inl h
        · exact Or.inr (Or.inr h)
      · rintro (h | rfl | h)
        · exact Or.inl h
        · exact Or.inl hx
        · exact Or.inr h
    · simp only [if_neg hx, List.mem_append, List.mem_singleton, List.mem_cons,
        List.not_mem_nil, or_false]
      constructor
      · rintro ((h | rfl) | h)
        · exact Or.inl h
        · exact Or.inr (Or.inl rfl)
        · exact Or.inr (Or.inr h)
      · rintro (h | rfl | h)
        · exact Or.inl (Or.inl h)
        · exact Or.inl (Or.inr rfl)
        · exact Or.inr h

/-- `firstSeen` keeps exactly the members of the list. -/
theorem mem_firstSeen {γ : Type} [DecidableEq γ] (l : List γ) (k : γ) :
    k ∈ firstSeen l ↔ k ∈ l := by
  unfold firstSeen
  rw [mem_firstSeen_aux]
  simp

/-- Adding one element to the end of a `firstSeen` fold. -/
theorem firstSeen_append_one {γ : Type} [DecidableEq γ] (l : List γ) (k : γ) :
    firstSeen (l ++ [k]) = if k ∈ l then firstSeen l else firstSeen l ++ [k] := by
  have h1 : firstSeen (l ++ [k])
      = if k ∈ firstSeen l then firstSeen l else firstSeen l ++ [k] := by
    unfold firstSeen
    rw [List.foldl_append]
    simp only [List.foldl_cons, List.foldl_nil]
  rw [h1]
  by_cases hk : k ∈ l
  · rw [if_pos ((mem_firstSeen l k).mpr hk), if_pos hk]
  · rw [if_neg (fun h => hk ((mem_firstSeen l k).mp h)), if_neg hk]

/-- Appending a fact with a different key leaves a group unchanged. -/
theorem groupFor_append_not_key (ms : List SchemaFact) (m : SchemaFact) (k : String)
    (hk : tableKey m ≠ k) : groupFor (ms ++ [m]) k = groupFor ms k := by
  unfold groupFor
  rw [List.filter_append]
  have hnil : List.filter (fun f => tableKey f == k) [m] = [] := by
    simp [beq_eq_false_iff_ne.mpr hk]
  rw [hnil, List.append_nil]

/-- Appending a fact whose key already occurs extends the columns of the
group of that key. -/
theorem groupFor_append_key (ms : List SchemaFact) (m : SchemaFact)
    (hmem : tableKey m ∈ ms.map tableKey) :
    groupFor (ms ++ [m]) (tableKey m)
      = { groupFor ms (tableKey m) with
          columns := (groupFor ms (tableKey m)).columns ++ [m] } := by
  unfold groupFor
  obtain ⟨f, hf, hfk⟩ := List.mem_map.mp hmem
  have hfmem : f ∈ ms.filter (fun x => tableKey x == tableKey m) :=
    List.mem_filter.mpr ⟨hf, by simp [hfk]⟩
  rw [List.filter_append]
  have hm1 : List.filter (fun x => tableKey x == tableKey m) [m] = [m] := by simp
  rw [hm1]
  rcases hfs : ms.filter (fun x => tableKey x == tableKey m) with _ | ⟨a, t⟩
  · rw [hfs] at hfmem
    exact absurd hfmem (List.not_mem_nil f)
  · simp

/-- Appending a fact with an unseen key creates its one-fact group. -/
theorem groupFor_append_new (ms : List SchemaFact) (m : SchemaFact)
    (hmem : tableKey m ∉ ms.map tableKey) :
    groupFor (ms ++ [m]) (tableKey m)
      = ⟨m.schema_name, m.table_name, [m]⟩ := by
  unfold groupFor
  have hnil : ms.filter (fun x => tableKey x == tableKey m) = [] := by
    rw [List.filter_eq_nil_iff]
    intro a ha
    simp only [beq_iff_eq]
    intro hEq
    exact hmem (hEq ▸ List.mem_map_of_mem _ ha)
  rw [List.filter_append, hnil]
  simp

/-- One step of the grouping loop agrees with the closed form. -/
theorem addFact_repr (ms : List SchemaFact) (m : SchemaFact) :
    addFact (reprTables ms) m = reprTables (ms ++ [m]) := by
  have hkeys : (ms ++ [m]).map tableKey = ms.map tableKey ++ [tableKey m] := by simp
  by_cases hmem : tableKey m ∈ ms.map tableKey
  · have hany : (reprTables ms).any (fun kv => kv.1 == tableKey m) = true := by
      rw [List.any_eq_true]
      exact ⟨(tableKey m, groupFor ms (tableKey m)),
        List.mem_map_of_mem _ ((mem_firstSeen _ _).mpr hmem), by simp⟩
    unfold addFact
    dsimp only
    rw [if_pos hany]
    unfold reprTables
    rw [hkeys, firstSeen_append_one, if_pos hmem, List.map_map]
    apply List.map_congr_left
    intro k hk
    simp only [Function.comp]
    by_cases hkm : k = tableKey m
    · subst hkm
      rw [if_pos (by simp)]
      rw [groupFor_append_key ms m hmem]
    · rw [if_neg (by simp [beq_eq_false_iff_ne.mpr hkm])]
      rw [groupFor_append_not_key ms m k (fun h => hkm h.symm)]
  · have hany : (reprTables ms).any (fun kv => kv.1 == tableKey m) = false := by
      rw [List.any_eq_false]
      intro kv hkv
      unfold reprTables at hkv
      obtain ⟨k, hk, rfl⟩ := List.mem_map.mp hkv
      have hkmem : k ∈ ms.map tableKey := (mem_firstSeen _ _).mp hk
      simp only [beq_iff_eq]
      intro hEq
      exact hmem (hEq ▸ hkmem)
    unfold addFact
    dsimp only
    rw [if_neg (by simp [hany])]
    rw [List.map_append]
    unfold reprTables
    rw [hkeys, firstSeen_append_one, if_neg hmem, List.map_append]
    congr 1
    · rw [List.map_map]
      apply List.map_congr_left
      intro k hk
      simp only [Function.comp]
      have hkmem : k ∈ ms.map tableKey := (mem_firstSeen _ _).mp hk
      have hkm : k ≠ tableKey m := fun hEq => hmem (hEq ▸ hkmem)
      rw [if_neg (by simp [beq_eq_false_iff_ne.mpr hkm])]
      rw [groupFor_append_not_key ms m k (fun h => hkm h.symm)]
    · simp only [List.map_cons, List.map_nil]
      rw [if_pos (by simp)]
      rw [groupFor_append_new ms m hmem]
      simp

/-- The grouping loop computes the closed form. -/
theorem groupTables_eq (metadata : List SchemaFact) :
    groupTables metadata = reprTables metadata := by
  induction metadata using List.reverseRecOn with
  | nil => rfl
  | append_singleton ms m ih =>
    unfold groupTables
    rw [List.foldl_append]
    simp only [List.foldl_cons, List.foldl_nil]
    rw [show List.foldl addFact [] ms = groupTables ms from rfl, ih]
    exact addFact_repr ms m

/-- The two spellings of the column description agree. -/
theorem columnDescription_eq (c : SchemaFact) :
    columnDescription c = specColumnDescription c := by
  unfold columnDescription specColumnDescription
  cases hp : c.is_primary_key <;> cases hf : c.is_foreign_key <;>
    simp only [hp, hf, Bool.false_eq_true, if_false, if_true] <;>
    (apply String.ext; simp [String.data_append, List.append_assoc])

/-- C2 counterexample: the code groups facts by the joined string
schema_name ++ "." ++ table_name, so the two distinct tables (a.b, c) and
(a, b.c) collide into one group: the output differs from grouping by the
(schema_name, table_name) pair, and only 3 units are emitted instead of
the claimed number of tables plus number of facts (2 + 2). -/
theorem generate_embedding_texts_pair_grouping_cex :
    generate_embedding_texts
        [⟨"a.b", "c", "x", "INT", false, false, none, none⟩,
         ⟨"a", "b.c", "y", "TEXT", false, false, none, none⟩]
      ≠ specUnitsByPair
        [⟨"a.b", "c", "x", "INT", false, false, none, none⟩,
         ⟨"a", "b.c", "y", "TEXT", false, false, none, none⟩]
    ∧ (generate_embedding_texts
        [⟨"a.b", "c", "x", "INT", false, false, none, none⟩,
         ⟨"a", "b.c", "y", "TEXT", false, false, none, none⟩]).length
      ≠ (firstSeen (([⟨"a.b", "c", "x", "INT", false, false, none, none⟩,
          ⟨"a", "b.c", "y", "TEXT", false, false, none, none⟩] : List SchemaFact).map
            (fun f => (f.schema_name, f.table_name)))).length
        + 2 := by
  decide

/-- C2 amended: the builder groups facts by the joined key string
schema_name ++ "." ++ table_name in first-seen order (identical to
grouping by the pair whenever no schema or table name contains a dot that
makes two keys collide), and per group emits one table-level unit, whose
identity comes from the first fact of the group and whose description
lists the column names of the group in fact order, followed by one
column-level unit per fact with the claimed description and key-role
suffixes; the output is a function of the input list, hence stable. -/
theorem generate_embedding_texts_grouped_by_key (metadata : List SchemaFact) :
    generate_embedding_texts metadata = specUnitsByKey metadata := by
  unfold generate_embedding_texts specUnitsByKey
  rw [groupTables_eq]
  unfold reprTables
  rw [List.map_map]
  congr 1
  apply List.map_congr_left
  intro k hk
  simp only [Function.comp]
  rw [show specTableUnit (metadata.filter (fun f => tableKey f == k))
      = ({ schema_name := (groupFor metadata k).schema_name
           table_name := (groupFor metadata k).table_name
           column_name := none
           description := tableDescription (groupFor metadata k) } : TextUnit) from rfl]
  congr 1
  rw [show (groupFor metadata k).columns
      = metadata.filter (fun f => tableKey f == k) from rfl]
  apply List.map_congr_left
  intro c hc
  unfold specColumnUnit
  rw [columnDescription_eq]

/-- The claimed ranking order is precisely the reverse lexicographic order
used to state the stability of the stable sort. -/
theorem rankLE_eq_enumLE (a b : Nat × RetrievalHit) :
    rankLE a b = List.enumLE hitLE a b := by
  unfold rankLE List.enumLE hitLE simAbove simEquiv
  cases hX : Sim.le b.2.similarity a.2.similarity <;>
    cases hY : Sim.le a.2.similarity b.2.similarity <;>
      simp [hX, hY]

/-- C1: the retriever scores every record of the scope against the query
vector with its cosine similarity, returns them sorted in descending order
of similarity with ties broken by original storage order, truncated to the
first `limit`; an empty scope yields the empty list rather than an error. -/
theorem query_vector_store_spec (store : List TableEmbedding)
    (query_embedding : List ℚ) (db_id : Option Nat) (limit : Nat) :
    query_vector_store store query_embedding db_id limit
        = searchSpec store query_embedding db_id limit
      ∧ (scopeRecords store db_id = [] →
          query_vector_store store query_embedding db_id limit = []) := by
  have hfun : rankLE = List.enumLE hitLE := by
    funext a b
    exact rankLE_eq_enumLE a b
  constructor
  · unfold query_vector_store searchSpec
    by_cases h : ((scopeRecords store db_id).map toSearchRecord).isEmpty
    · rw [List.isEmpty_iff] at h
      simp [h]
    · simp only [h, Bool.false_eq_true, if_false]
      rw [hfun, List.mergeSort_enum]
  · intro h
    unfold query_vector_store
    simp [h]

/-- The scores of the zero-norm cases vanish: a zero vector has zero dot
product with anything. -/
theorem dotQ_nil_left (b : List ℚ) : dotQ [] b = 0 := rfl

/-- Dot product with an empty second argument. -/
theorem dotQ_nil_right (a : List ℚ) : dotQ a [] = 0 := by
  cases a <;> rfl

/-- Dot product unfolding on cons cells. -/
theorem dotQ_cons (x y : ℚ) (xs ys : List ℚ) :
    dotQ (x :: xs) (y :: ys) = x * y + dotQ xs ys := by
  simp [dotQ]

/-- Rescaling the second argument rescales the dot product. -/
theorem dotQ_map_mul (c : ℚ) (a q : List ℚ) :
    dotQ a (q.map (fun x => c * x)) = c * dotQ a q := by
  induction a generalizing q with
  | nil => simp [dotQ]
  | cons x xs ih =>
    cases q with
    | nil => simp [dotQ]
    | cons y ys =>
      rw [List.map_cons, dotQ_cons, dotQ_cons, ih]
      ring

/-- Norm unfolding on cons cells. -/
theorem normSq_cons (x : ℚ) (xs : List ℚ) :
    normSq (x :: xs) = x * x + normSq xs := by
  simp [normSq, dotQ_cons]

/-- Rescaling squares the norm factor. -/
theorem normSq_map_mul (c : ℚ) (q : List ℚ) :
    normSq (q.map (fun x => c * x)) = c ^ 2 * normSq q := by
  induction q with
  | nil => simp [normSq, dotQ]
  | cons y ys ih =>
    rw [List.map_cons, normSq_cons, normSq_cons, ih]
    ring

/-- Squared norms are nonnegative. -/
theorem normSq_nonneg (a : List ℚ) : 0 ≤ normSq a := by
  induction a with
  | nil => simp [normSq, dotQ]
  | cons x xs ih =>
    rw [normSq_cons]
    have := mul_self_nonneg x
    linarith

/-- A vector of zero norm has zero dot product with every vector. -/
theorem dotQ_eq_zero_of_normSq (a : List ℚ) (ha : normSq a = 0) (q : List ℚ) :
    dotQ a q = 0 := by
  induction a generalizing q with
  | nil => rfl
  | cons x xs ih =>
    rw [normSq_cons] at ha
    have hx2 := mul_self_nonneg x
    have hxs := normSq_nonneg xs
    have hx : x = 0 := by
      have : x * x = 0 := by linarith
      exact mul_self_eq_zero.mp this
    have hxs0 : normSq xs = 0 := by linarith
    cases q with
    | nil => exact dotQ_nil_right _
    | cons y ys =>
      rw [dotQ_cons, hx, ih hxs0 ys]
      ring

/-- Multiplying by a positive factor preserves nonpositivity. -/
theorem mul_nonpos_left_iff (c x : ℚ) (hc : 0 < c) : c * x ≤ 0 ↔ x ≤ 0 := by
  constructor
  · intro h
    by_contra h2
    push_neg at h2
    nlinarith
  · intro h
    nlinarith

/-- Multiplying by a positive factor preserves nonnegativity. -/
theorem mul_nonneg_left_iff (c y : ℚ) (hc : 0 < c) : 0 ≤ c * y ↔ 0 ≤ y := by
  constructor
  · intro h
    by_contra h2
    push_neg at h2
    nlinarith
  · intro h
    nlinarith

/-- The similarity order is invariant under jointly rescaling numerator by
c and squared denominator by c². -/
theorem simle_smul (c : ℚ) (hc : 0 < c) (x p y r : ℚ) :
    Sim.le ⟨c * x, c ^ 2 * p⟩ ⟨c * y, c ^ 2 * r⟩ = Sim.le ⟨x, p⟩ ⟨y, r⟩ := by
  unfold Sim.le
  dsimp only
  by_cases hx : x ≤ 0
  · rw [if_pos ((mul_nonpos_left_iff c x hc).mpr hx), if_pos hx]
    by_cases hy : 0 ≤ y
    · rw [if_pos ((mul_nonneg_left_iff c y hc).mpr hy), if_pos hy]
    · rw [if_neg (fun h => hy ((mul_nonneg_left_iff c y hc).mp h)), if_neg hy]
      congr 1
      apply propext
      rw [show (c * y) ^ 2 * (c ^ 2 * p) = c ^ 4 * (y ^ 2 * p) from by ring,
        show (c * x) ^ 2 * (c ^ 2 * r) = c ^ 4 * (x ^ 2 * r) from by ring]
      exact mul_le_mul_left (by positivity)
  · rw [if_neg (fun h => hx ((mul_nonpos_left_iff c x hc).mp h)), if_neg hx]
    by_cases hy : y ≤ 0
    · rw [if_pos ((mul_nonpos_left_iff c y hc).mpr hy), if_pos hy]
    · rw [if_neg (fun h => hy ((mul_nonpos_left_iff c y hc).mp h)), if_neg hy]
      congr 1
      apply propext
      rw [show (c * x) ^ 2 * (c ^ 2 * r) = c ^ 4 * (x ^ 2 * r) from by ring,
        show (c * y) ^ 2 * (c ^ 2 * p) = c ^ 4 * (y ^ 2 * p) from by ring]
      exact mul_le_mul_left (by positivity)

/-- Rescaling the right pair does not change the comparison with the zero
score. -/
theorem simle_zero_smul (c : ℚ) (hc : 0 < c) (y r : ℚ) :
    Sim.le ⟨0, 1⟩ ⟨c * y, c ^ 2 * r⟩ = Sim.le ⟨0, 1⟩ ⟨y, r⟩ := by
  unfold Sim.le
  dsimp only
  rw [if_pos (le_refl (0 : ℚ)), if_pos (le_refl (0 : ℚ))]
  by_cases hy : 0 ≤ y
  · rw [if_pos ((mul_nonneg_left_iff c y hc).mpr hy), if_pos hy]
  · rw [if_neg (fun h => hy ((mul_nonneg_left_iff c y hc).mp h)), if_neg hy]
    push_neg at hy
    have hcy : c * y ≠ 0 := ne_of_lt (mul_neg_of_pos_of_neg hc hy)
    have h1 : ¬ ((c * y) ^ 2 * (1 : ℚ) ≤ (0 : ℚ) ^ 2 * (c ^ 2 * r)) := by
      intro hcon
      nlinarith [pow_two_pos_of_ne_zero hcy]
    have h2 : ¬ (y ^ 2 * (1 : ℚ) ≤ (0 : ℚ) ^ 2 * r) := by
      intro hcon
      nlinarith [pow_two_pos_of_ne_zero (ne_of_lt hy)]
    congr 1
    apply propext
    constructor
    · intro hcon
      exact absurd hcon h1
    · intro hcon
      exact absurd hcon h2

/-- Rescaling the left pair does not change the comparison with the zero
score. -/
theorem simle_smul_zero (c : ℚ) (hc : 0 < c) (x p : ℚ) :
    Sim.le ⟨c * x, c ^ 2 * p⟩ ⟨0, 1⟩ = Sim.le ⟨x, p⟩ ⟨0, 1⟩ := by
  unfold Sim.le
  dsimp only
  by_cases hx : x ≤ 0
  · rw [if_pos ((mul_nonpos_left_iff c x hc).mpr hx), if_pos hx]
    rw [if_pos (le_refl (0 : ℚ)), if_pos (le_refl (0 : ℚ))]
  · rw [if_neg (fun h => hx ((mul_nonpos_left_iff c x hc).mp h)), if_neg hx]
    rw [if_pos (le_refl (0 : ℚ)), if_pos (le_refl (0 : ℚ))]

/-- The rescaled cosine score, written over the original query. -/
theorem cosineSim_map_mul (c : ℚ) (hc : c ≠ 0) (a q : List ℚ) :
    cosineSim a (q.map (fun x => c * x))
      = if normSq a * normSq q = 0 then ⟨0, 1⟩
        else ⟨c * dotQ a q, c ^ 2 * (normSq a * normSq q)⟩ := by
  unfold cosineSim
  rw [dotQ_map_mul, normSq_map_mul]
  have hc2 : c ^ 2 ≠ 0 := pow_ne_zero 2 hc
  have hcond : (normSq a * (c ^ 2 * normSq q) = 0) ↔ (normSq a * normSq q = 0) := by
    rw [show normSq a * (c ^ 2 * normSq q) = c ^ 2 * (normSq a * normSq q) from by ring]
    rw [mul_eq_zero]
    simp [hc2]
  by_cases h : normSq a * normSq q = 0
  · rw [if_pos (hcond.mpr h), if_pos h]
  · rw [if_neg (fun hh => h (hcond.mp hh)), if_neg h]
    simp only [Sim.mk.injEq, true_and]
    ring

/-- Pairwise similarity comparisons are invariant under positive rescaling
of the query vector. -/
theorem simle_cosineSim_map (c : ℚ) (hc : 0 < c) (a b q : List ℚ) :
    Sim.le (cosineSim a (q.map (fun x => c * x)))
        (cosineSim b (q.map (fun x => c * x)))
      = Sim.le (cosineSim a q) (cosineSim b q) := by
  rw [cosineSim_map_mul c hc.ne' a q, cosineSim_map_mul c hc.ne' b q]
  unfold cosineSim
  by_cases ha : normSq a * normSq q = 0 <;> by_cases hb : normSq b * normSq q = 0
  · rw [if_pos ha, if_pos hb, if_pos ha, if_pos hb]
  · rw [if_pos ha, if_neg hb, if_pos ha, if_neg hb]
    exact simle_zero_smul c hc _ _
  · rw [if_neg ha, if_pos hb, if_neg ha, if_pos hb]
    exact simle_smul_zero c hc _ _
  · rw [if_neg ha, if_neg hb, if_neg ha, if_neg hb]
    exact simle_smul c hc _ _ _ _

/-- C9: rescaling the query vector by any positive scalar leaves the
ranking returned by the retriever unchanged — the same records come back
in the same order. -/
theorem search_rescaling_invariant (store : List TableEmbedding) (q : List ℚ)
    (db_id : Option Nat) (limit : Nat) (c : ℚ) (hc : 0 < c) :
    (query_vector_store store (q.map (fun x => c * x)) db_id limit).map hitRecord
      = (query_vector_store store q db_id limit).map hitRecord := by
  unfold query_vector_store
  by_cases h : ((scopeRecords store db_id).map toSearchRecord).isEmpty
  · simp [h]
  · simp only [h, Bool.false_eq_true, if_false]
    have hmapg : ((scopeRecords store db_id).map toSearchRecord).map
        (scoreRecord (q.map (fun x => c * x)))
        = (((scopeRecords store db_id).map toSearchRecord).map (scoreRecord q)).map
            (fun h0 =>
              { h0 with similarity := cosineSim h0.embedding (q.map (fun x => c * x)) }) := by
      simp only [List.map_map]
      apply List.map_congr_left
      intro r hr
      rfl
    rw [hmapg]
    have hcomp : ∀ a ∈ ((scopeRecords store db_id).map toSearchRecord).map (scoreRecord q),
        ∀ b ∈ ((scopeRecords store db_id).map toSearchRecord).map (scoreRecord q),
        hitLE a b
          = hitLE
            ({ a with similarity := cosineSim a.embedding (q.map (fun x => c * x)) })
            ({ b with similarity := cosineSim b.embedding (q.map (fun x => c * x)) }) := by
      intro a ha b hb
      obtain ⟨ra, hra, rfl⟩ := List.mem_map.mp ha
      obtain ⟨rb, hrb, rfl⟩ := List.mem_map.mp hb
      show Sim.le (cosineSim rb.embedding q) (cosineSim ra.embedding q)
        = Sim.le (cosineSim rb.embedding (q.map (fun x => c * x)))
            (cosineSim ra.embedding (q.map (fun x => c * x)))
      exact (simle_cosineSim_map c hc rb.embedding ra.embedding q).symm
    rw [← List.map_mergeSort hcomp]
    rw [← List.map_take, List.map_map]
    apply List.map_congr_left
    intro h0 hh0
    rfl

/-- Witness for C9 at a concrete store and scaling factor 2. -/
theorem search_rescaling_invariant_w :
    (query_vector_store [⟨0, 5, "s", "t", none, "d", [1, 2], "n"⟩]
        ([1, 0].map (fun x => (2 : ℚ) * x)) (some 5) 3).map hitRecord
      = (query_vector_store [⟨0, 5, "s", "t", none, "d", [1, 2], "n"⟩]
          [1, 0] (some 5) 3).map hitRecord :=
  search_rescaling_invariant [⟨0, 5, "s", "t", none, "d", [1, 2], "n"⟩]
    [1, 0] (some 5) 3 2 (by norm_num)

/-! ### Justification of the square-root-free similarity representation

`Sim.le` agrees with the order of the denoted real numbers, and the pair
produced by `cosineSim` denotes exactly the sklearn cosine similarity. -/

/-- Comparison flips to the squares on nonpositive values. -/
theorem sq_le_of_nonpos {u v : ℝ} (_hu : u ≤ 0) (hv : v ≤ 0) (h : u * u ≤ v * v) :
    v ≤ u := by
  by_contra hvu
  push_neg at hvu
  have hlt := mul_self_lt_mul_self (by linarith : (0 : ℝ) ≤ -v) (by linarith : -v < -u)
  nlinarith

/-- Comparison matches the squares on nonnegative values. -/
theorem sq_le_of_nonneg {u v : ℝ} (_hu : 0 ≤ u) (hv : 0 ≤ v) (h : u * u ≤ v * v) :
    u ≤ v := by
  by_contra hvu
  push_neg at hvu
  have hlt := mul_self_lt_mul_self hv hvu
  nlinarith

/-- `Sim.le` decides exactly the order of the denoted real numbers
num / sqrt denSq, for pairs with positive squared denominator (as all
pairs built by `cosineSim` are). -/
theorem simLe_iff_real (s t : Sim) (hs : 0 < s.denSq) (ht : 0 < t.denSq) :
    Sim.le s t = true
      ↔ ((s.num : ℝ) / Real.sqrt ((s.denSq : ℚ) : ℝ)
          ≤ (t.num : ℝ) / Real.sqrt ((t.denSq : ℚ) : ℝ)) := by
  have hsdR : (0 : ℝ) < ((s.denSq : ℚ) : ℝ) := by exact_mod_cast hs
  have htdR : (0 : ℝ) < ((t.denSq : ℚ) : ℝ) := by exact_mod_cast ht
  have hsp : (0 : ℝ) < Real.sqrt ((s.denSq : ℚ) : ℝ) := Real.sqrt_pos.mpr hsdR
  have htp : (0 : ℝ) < Real.sqrt ((t.denSq : ℚ) : ℝ) := Real.sqrt_pos.mpr htdR
  have hsq : Real.sqrt ((s.denSq : ℚ) : ℝ) * Real.sqrt ((s.denSq : ℚ) : ℝ)
      = ((s.denSq : ℚ) : ℝ) := Real.mul_self_sqrt hsdR.le
  have htq : Real.sqrt ((t.denSq : ℚ) : ℝ) * Real.sqrt ((t.denSq : ℚ) : ℝ)
      = ((t.denSq : ℚ) : ℝ) := Real.mul_self_sqrt htdR.le
  rw [div_le_div_iff₀ hsp htp]
  unfold Sim.le
  by_cases hx : s.num ≤ 0
  · have hxR : (s.num : ℝ) ≤ 0 := by exact_mod_cast hx
    rw [if_pos hx]
    by_cases hy : 0 ≤ t.num
    · have hyR : (0 : ℝ) ≤ (t.num : ℝ) := by exact_mod_cast hy
      rw [if_pos hy]
      constructor
      · intro _
        have h1 : (s.num : ℝ) * Real.sqrt ((t.denSq : ℚ) : ℝ) ≤ 0 :=
          mul_nonpos_iff.mpr (Or.inr ⟨hxR, htp.le⟩)
        have h2 : (0 : ℝ) ≤ (t.num : ℝ) * Real.sqrt ((s.denSq : ℚ) : ℝ) :=
          mul_nonneg hyR hsp.le
        linarith
      · intro _
        rfl
    · push_neg at hy
      have hyR : (t.num : ℝ) < 0 := by exact_mod_cast hy
      rw [if_neg (by push_neg; exact hy)]
      rw [decide_eq_true_eq]
      constructor
      · intro hq
        have hqR : ((t.num : ℝ)) ^ 2 * ((s.denSq : ℚ) : ℝ)
            ≤ ((s.num : ℝ)) ^ 2 * ((t.denSq : ℚ) : ℝ) := by exact_mod_cast hq
        have hu : (t.num : ℝ) * Real.sqrt ((s.denSq : ℚ) : ℝ) ≤ 0 :=
          mul_nonpos_iff.mpr (Or.inr ⟨hyR.le, hsp.le⟩)
        have hv : (s.num : ℝ) * Real.sqrt ((t.denSq : ℚ) : ℝ) ≤ 0 :=
          mul_nonpos_iff.mpr (Or.inr ⟨hxR, htp.le⟩)
        apply sq_le_of_nonpos hu hv
        nlinarith [hsq, htq, hqR]
      · intro hr
        have hsqle : ((t.num : ℝ) * Real.sqrt ((s.denSq : ℚ) : ℝ))
              * ((t.num : ℝ) * Real.sqrt ((s.denSq : ℚ) : ℝ))
            ≤ ((s.num : ℝ) * Real.sqrt ((t.denSq : ℚ) : ℝ))
              * ((s.num : ℝ) * Real.sqrt ((t.denSq : ℚ) : ℝ)) := by
          have hu : (t.num : ℝ) * Real.sqrt ((s.denSq : ℚ) : ℝ) ≤ 0 :=
            mul_nonpos_iff.mpr (Or.inr ⟨hyR.le, hsp.le⟩)
          have hmm : (-((t.num : ℝ) * Real.sqrt ((s.denSq : ℚ) : ℝ)))
                * (-((t.num : ℝ) * Real.sqrt ((s.denSq : ℚ) : ℝ)))
              ≤ (-((s.num : ℝ) * Real.sqrt ((t.denSq : ℚ) : ℝ)))
                * (-((s.num : ℝ) * Real.sqrt ((t.denSq : ℚ) : ℝ))) :=
            mul_self_le_mul_self (by linarith) (by linarith)
          nlinarith [hmm]
        have : ((t.num : ℝ)) ^ 2 * ((s.denSq : ℚ) : ℝ)
            ≤ ((s.num : ℝ)) ^ 2 * ((t.denSq : ℚ) : ℝ) := by
          nlinarith [hsq, htq, hsqle]
        exact_mod_cast this
  · push_neg at hx
    have hxR : (0 : ℝ) < (s.num : ℝ) := by exact_mod_cast hx
    rw [if_neg (by push_neg; exact hx)]
    by_cases hy : t.num ≤ 0
    · have hyR : (t.num : ℝ) ≤ 0 := by exact_mod_cast hy
      rw [if_pos hy]
      constructor
      · intro hcon
        exact absurd hcon (by simp)
      · intro hcon
        exfalso
        have h1 : (0 : ℝ) < (s.num : ℝ) * Real.sqrt ((t.denSq : ℚ) : ℝ) :=
          mul_pos hxR htp
        have h2 : (t.num : ℝ) * Real.sqrt ((s.denSq : ℚ) : ℝ) ≤ 0 :=
          mul_nonpos_iff.mpr (Or.inr ⟨hyR, hsp.le⟩)
        linarith
    · push_neg at hy
      have hyR : (0 : ℝ) < (t.num : ℝ) := by exact_mod_cast hy
      rw [if_neg (by push_neg; exact hy)]
      rw [decide_eq_true_eq]
      constructor
      · intro hq
        have hqR : ((s.num : ℝ)) ^ 2 * ((t.denSq : ℚ) : ℝ)
            ≤ ((t.num : ℝ)) ^ 2 * ((s.denSq : ℚ) : ℝ) := by exact_mod_cast hq
        have hu : (0 : ℝ) ≤ (s.num : ℝ) * Real.sqrt ((t.denSq : ℚ) : ℝ) :=
          mul_nonneg hxR.le htp.le
        have hv : (0 : ℝ) ≤ (t.num : ℝ) * Real.sqrt ((s.denSq : ℚ) : ℝ) :=
          mul_nonneg hyR.le hsp.le
        apply sq_le_of_nonneg hu hv
        nlinarith [hsq, htq, hqR]
      · intro hr
        have hu : (0 : ℝ) ≤ (s.num : ℝ) * Real.sqrt ((t.denSq : ℚ) : ℝ) :=
          mul_nonneg hxR.le htp.le
        have hsqle := mul_self_le_mul_self hu hr
        have : ((s.num : ℝ)) ^ 2 * ((t.denSq : ℚ) : ℝ)
            ≤ ((t.num : ℝ)) ^ 2 * ((s.denSq : ℚ) : ℝ) := by
          nlinarith [hsq, htq, hsqle]
        exact_mod_cast this

/-- The pair built by `cosineSim` denotes the sklearn cosine similarity
when both vectors have nonzero norm. -/
theorem cosineSim_real (a q : List ℚ) (h : ¬ (normSq a * normSq q = 0)) :
    (((cosineSim a q).num : ℚ) : ℝ) / Real.sqrt (((cosineSim a q).denSq : ℚ) : ℝ)
      = ((dotQ a q : ℚ) : ℝ)
        / (Real.sqrt ((normSq a : ℚ) : ℝ) * Real.sqrt ((normSq q : ℚ) : ℝ)) := by
  unfold cosineSim
  rw [if_neg h]
  dsimp only
  rw [show (((normSq a * normSq q : ℚ)) : ℝ)
      = ((normSq a : ℚ) : ℝ) * ((normSq q : ℚ) : ℝ) from by push_cast; ring]
  rw [Real.sqrt_mul (by exact_mod_cast normSq_nonneg a)]

/-- The pair built by `cosineSim` denotes 0 when either vector has zero
norm, matching the sklearn convention for zero vectors. -/
theorem cosineSim_real_zero (a q : List ℚ) (h : normSq a * normSq q = 0) :
    (((cosineSim a q).num : ℚ) : ℝ) / Real.sqrt (((cosineSim a q).denSq : ℚ) : ℝ)
      = 0 := by
  unfold cosineSim
  rw [if_pos h]
  simp

/-- Witness for C1 at a concrete empty scope. -/
theorem query_vector_store_spec_w :
    query_vector_store [] [1] none 5 = [] :=
  (query_vector_store_spec [] [1] none 5).2 rfl
